import Mathlib

/-!
Verification development for the LifeQuery frontend (TypeScript sources under
`frontend/src`).  Each definition is a shallow embedding of one source
function; theorems settle the specification claims about them.

JavaScript string builtins (`trim`, `split`, `startsWith`, `slice`,
`toLowerCase`, `includes`) are modelled by structurally recursive functions
over `String.data`, so that every definition evaluates inside the kernel.
-/

namespace LifeQuery

/-- Model of JS `String.prototype.trim`: strip leading and trailing
whitespace characters. -/
def jsTrim (s : String) : String :=
  ⟨((s.data.dropWhile Char.isWhitespace).reverse.dropWhile Char.isWhitespace).reverse⟩

/-- Model of JS `String.prototype.startsWith`. -/
def jsStartsWith (s pre : String) : Bool :=
  pre.data.isPrefixOf s.data

/-- Model of JS `String.prototype.slice(n)` (drop the first `n` characters). -/
def jsDrop (s : String) (n : Nat) : String :=
  ⟨s.data.drop n⟩

/-- Helper for `jsSplitNl`: split a character list at every newline. -/
def splitNlChars : List Char → List String
  | [] => [""]
  | c :: t =>
    if c = '\n' then "" :: splitNlChars t
    else
      match splitNlChars t with
      | [] => [⟨[c]⟩]
      | s :: rest => (⟨c :: s.data⟩ : String) :: rest

/-- Model of JS `String.prototype.split("\n")`: the empty string splits to
`[""]`, and every newline character separates two fields. -/
def jsSplitNl (s : String) : List String :=
  splitNlChars s.data

/-- Model of JS `String.prototype.toLowerCase` (ASCII range). -/
def jsToLower (s : String) : String :=
  ⟨s.data.map Char.toLower⟩

/-- Helper for `jsIncludes`: does `need` occur as a contiguous sublist? -/
def hasSublist (need : List Char) : List Char → Bool
  | [] => need.isEmpty
  | c :: t => need.isPrefixOf (c :: t) || hasSublist need t

/-- Model of JS `String.prototype.includes`. -/
def jsIncludes (hay need : String) : Bool :=
  hasSublist need.data hay.data

/-- Citation record streamed by the backend (`frontend/src/api/chat.ts`). -/
structure Citation where
  chat_name : String
  date_range : String
  participants : List String
deriving DecidableEq

/-- Parsed SSE event (`frontend/src/api/client.ts`).  The `type` field is the
discriminator; `content` carries the payload of `token` events and
`citations` the payload of `citations` events (other events ignore them). -/
structure SseEvent where
  type : String
  content : String := ""
  citations : List Citation := []
deriving DecidableEq

/-- Shallow embedding of `parseSseLine` (`frontend/src/api/client.ts:38`).
`jp` is the oracle standing for `JSON.parse`, returning `none` where the
real parser would throw on malformed JSON. -/
def parseSseLine (jp : String → Option SseEvent) (line : String) : Option SseEvent :=
  if jsStartsWith line "data: " then
    let data := jsTrim (jsDrop line 6)
    if data = "[DONE]" then some ⟨"done", "", []⟩
    else jp data
  else none

/-- Per-buffer line loop of `apiStream` (`frontend/src/api/client.ts:88`):
parse each trimmed line; a `done`-typed event is yielded and ends the
generator (second component `true`). -/
def processApiLines (jp : String → Option SseEvent) : List String → List SseEvent × Bool
  | [] => ([], false)
  | l :: ls =>
    match parseSseLine jp (jsTrim l) with
    | none => processApiLines jp ls
    | some e =>
      if e.type = "done" then ([e], true)
      else
        let r := processApiLines jp ls
        (e :: r.1, r.2)

/-- Shallow embedding of the `apiStream` read loop
(`frontend/src/api/client.ts:80`): `chunks` are the decoded text chunks
delivered by the reader, `buffer` the carried-over partial line.  Each chunk
is appended to the buffer, split on newlines, the last field becomes the new
buffer, and the complete lines are parsed. -/
def apiStreamEvents (jp : String → Option SseEvent) : List String → String → List SseEvent
  | [], _ => []
  | c :: cs, buffer =>
    let lines := jsSplitNl (buffer ++ c)
    let r := processApiLines jp lines.dropLast
    if r.2 then r.1 else r.1 ++ apiStreamEvents jp cs (lines.getLastD "")

/-- Shallow embedding of the generator loop of `streamChat`
(`frontend/src/api/chat.ts:42`): forward exactly the events whose `type` is
`token`, `citations` or `debug`. -/
def streamChatEvents : List SseEvent → List SseEvent
  | [] => []
  | e :: es =>
    if e.type = "token" ∨ e.type = "citations" ∨ e.type = "debug" then
      e :: streamChatEvents es
    else streamChatEvents es

/-- Per-buffer line loop of the inlined reader in `importJson`
(`frontend/src/api/data.ts:105`): a `data: [DONE]` line ends the generator
without yielding; parsed JSON events are yielded unconditionally. -/
def processImportLines (jp : String → Option SseEvent) : List String → List SseEvent × Bool
  | [] => ([], false)
  | l :: ls =>
    let trimmed := jsTrim l
    if jsStartsWith trimmed "data: " then
      let data := jsDrop trimmed 6
      if data = "[DONE]" then ([], true)
      else
        match jp data with
        | none => processImportLines jp ls
        | some e =>
          let r := processImportLines jp ls
          (e :: r.1, r.2)
    else processImportLines jp ls

/-- Shallow embedding of the `importJson` read loop
(`frontend/src/api/data.ts:97`), with the same chunk/buffer discipline as
`apiStreamEvents`. -/
def importJsonEvents (jp : String → Option SseEvent) : List String → String → List SseEvent
  | [], _ => []
  | c :: cs, buffer =>
    let lines := jsSplitNl (buffer ++ c)
    let r := processImportLines jp lines.dropLast
    if r.2 then r.1 else r.1 ++ importJsonEvents jp cs (lines.getLastD "")

/-- Whether the `apiStream` loop has returned early (a `done`-typed event was
yielded) by the end of the given chunks. -/
def apiStreamStopped (jp : String → Option SseEvent) : List String → String → Bool
  | [], _ => false
  | c :: cs, buffer =>
    let lines := jsSplitNl (buffer ++ c)
    let r := processApiLines jp lines.dropLast
    if r.2 then true else apiStreamStopped jp cs (lines.getLastD "")

/-- Whether the `importJson` loop has returned early (a `data: [DONE]` line
was parsed) by the end of the given chunks. -/
def importJsonStopped (jp : String → Option SseEvent) : List String → String → Bool
  | [], _ => false
  | c :: cs, buffer =>
    let lines := jsSplitNl (buffer ++ c)
    let r := processImportLines jp lines.dropLast
    if r.2 then true else importJsonStopped jp cs (lines.getLastD "")

/-- Specification-side predicate: every `done`-typed event, if present, is
the final element of the list (hence there is at most one). -/
def doneTerminated : List SseEvent → Bool
  | [] => true
  | e :: es => if e.type = "done" then es.isEmpty else doneTerminated es

/-- Chat message held in the ChatTab state (`Message` interface in the chat
tab component). The `timestamp` field plays no role in any claim and is
omitted. -/
structure Message where
  id : String
  role : String
  content : String
  citations : Option (List Citation) := none
deriving DecidableEq

/-- Actions of the ChatTab message reducer (`MessageAction` union type). -/
inductive MessageAction where
  | addMessage (message : Message)
  | appendToken (messageId : String) (token : String)
  | setCitations (messageId : String) (citations : List Citation)
  | setMessages (messages : List Message)

/-- Shallow embedding of `messagesReducer` from the chat tab component. -/
def messagesReducer (state : List Message) : MessageAction → List Message
  | .addMessage m => state ++ [m]
  | .appendToken mid tok =>
    state.map fun msg =>
      if msg.id = mid then ⟨msg.id, msg.role, msg.content ++ tok, msg.citations⟩ else msg
  | .setCitations mid cs =>
    state.map fun msg =>
      if msg.id = mid then ⟨msg.id, msg.role, msg.content, some cs⟩ else msg
  | .setMessages ms => ms

/-- How the stream ended: normal completion, or the `for await` loop threw
with the given error message (`err.message`). -/
inductive StreamOutcome where
  | ok
  | err (msg : String)

/-- Component state touched by `handleSend`: the reducer-managed message list
and the error banner (`setError`). -/
structure ChatState where
  messages : List Message
  error : Option String
deriving DecidableEq

/-- Loop body of `handleSend`'s `for await` over `streamChat`: dispatch
APPEND_TOKEN on `token` events, SET_CITATIONS on `citations` events; `debug`
events only touch the debug panel, not the message list. -/
def chatStep (assistantId : String) (st : List Message) (e : SseEvent) : List Message :=
  if e.type = "token" then messagesReducer st (.appendToken assistantId e.content)
  else if e.type = "debug" then st
  else if e.type = "citations" then messagesReducer st (.setCitations assistantId e.citations)
  else st

/-- Message-list state after `handleSend` has added the user message and the
assistant placeholder and consumed `events` from the stream. -/
def afterStream (prev : List Message) (input userId assistantId : String)
    (events : List SseEvent) : List Message :=
  let st0 := messagesReducer prev (.addMessage ⟨userId, "user", input, none⟩)
  let st1 := messagesReducer st0 (.addMessage ⟨assistantId, "assistant", "", none⟩)
  events.foldl (chatStep assistantId) st1

/-- Shallow embedding of `handleSend` in the chat tab component: `events` are
the stream events consumed before the stream ended with `outcome`; `aborted`
is `controller.signal.aborted` at catch time.  On a non-aborted error the
component appends a single `[Error: <message>]` token to the assistant
message and sets the error banner; on abort it leaves both untouched. -/
def handleSend (prev : List Message) (input userId assistantId : String)
    (events : List SseEvent) (outcome : StreamOutcome) (aborted : Bool) : ChatState :=
  let st2 := afterStream prev input userId assistantId events
  match outcome with
  | .ok => ⟨st2, none⟩
  | .err msg =>
    if aborted then ⟨st2, none⟩
    else ⟨messagesReducer st2 (.appendToken assistantId ("[Error: " ++ msg ++ "]")), some msg⟩

/-- Specification-side accumulator: concatenation of the `content` of all
`token` events, starting from `acc`. -/
def tokenConcatFrom (acc : String) : List SseEvent → String
  | [] => acc
  | e :: es => tokenConcatFrom (if e.type = "token" then acc ++ e.content else acc) es

/-- Specification-side accumulator: the payload of the last `citations`
event, or `base` when none occurred. -/
def citationsAfter (base : Option (List Citation)) : List SseEvent → Option (List Citation)
  | [] => base
  | e :: es => citationsAfter (if e.type = "citations" then some e.citations else base) es

/-- Value stored in the settings form state: a string, a number, or a
boolean field of the `Settings` object. -/
inductive SettingValue where
  | str (s : String)
  | num (n : Int)
  | flag (b : Bool)
deriving DecidableEq

/-- The sensitive-key list checked by `handleSave` in the settings tab. -/
def isSensitiveField (k : String) : Bool :=
  (["telegram_api_hash", "openrouter_api_key", "chat_api_key", "api_key"] : List String).contains k

/-- Loop body of `handleSave` (settings tab): an `undefined` entry is
skipped; a sensitive key is kept only when its value is neither the sentinel
`"****"` nor the empty string; any other key is kept unconditionally. -/
def handleSaveEntry (kv : String × Option SettingValue) : Option (String × SettingValue) :=
  match kv.2 with
  | none => none
  | some v =>
    if isSensitiveField kv.1 then
      if v ≠ SettingValue.str "****" ∧ v ≠ SettingValue.str "" then some (kv.1, v) else none
    else some (kv.1, v)

/-- Shallow embedding of the update-payload construction in `handleSave`
(settings tab): apply `handleSaveEntry` to the defined entries of
`localSettings`, in order. -/
def handleSaveUpdateData (localSettings : List (String × Option SettingValue)) :
    List (String × SettingValue) :=
  localSettings.filterMap handleSaveEntry

/-- Chat row displayed in the data tab (`Chat` interface in
`frontend/src/api/chats.ts`), restricted to the fields `filteredChats`
reads. -/
structure ChatInfo where
  chat_id : String
  chat_name : String
  message_count : Nat
  included : Bool
deriving DecidableEq

/-- Shallow embedding of `filteredChats` in the data tab component. -/
def filteredChats (chats : List ChatInfo) (chatsFilter searchQuery : String) : List ChatInfo :=
  chats.filter fun chat =>
    let isSearchActive : Bool := decide (0 < (jsTrim searchQuery).length)
    let matchesFilter : Bool :=
      (chatsFilter == "all" && (chat.included || decide (0 < chat.message_count) || isSearchActive))
      || (chatsFilter == "included" && chat.included)
      || (chatsFilter == "excluded" && !chat.included)
    let matchesSearch : Bool :=
      jsIncludes (jsToLower chat.chat_name) (jsToLower searchQuery)
      || jsIncludes chat.chat_id searchQuery
    matchesFilter && matchesSearch

/-- Parsed JSON body of an HTTP response, restricted to the fields `apiFetch`
reads on the error path; a field that is absent is `none`. -/
structure JsonBody where
  error : Option String := none
  detail : Option String := none
deriving DecidableEq

/-- Observable failure of `apiFetch`: a thrown `Error` with a message, or the
rejection of `res.json()` on a 2xx response whose body is not valid JSON. -/
inductive ApiError where
  | httpError (msg : String)
  | bodyParseError
deriving DecidableEq

/-- HTTP response as `apiFetch` observes it: the status code and the result
of parsing the body as JSON (`none` when `res.json()` would reject). -/
structure Response where
  status : Nat
  json : Option JsonBody
deriving DecidableEq

/-- Model of JS `x || y` on an optional string field: an absent field and the
empty string are both falsy. -/
def jsOrString (x : Option String) (y : String) : String :=
  match x with
  | some s => if s = "" then y else s
  | none => y

/-- Shallow embedding of `apiFetch` (`frontend/src/api/client.ts:14`).
`res.ok` is `200 ≤ status ≤ 299`; on a non-2xx status the thrown message is
`errorData.error || errorData.detail || "HTTP <status>"`, falling back to
`"HTTP <status>"` when the body fails to parse. -/
def apiFetch (res : Response) : Except ApiError JsonBody :=
  if 200 ≤ res.status ∧ res.status ≤ 299 then
    match res.json with
    | some b => .ok b
    | none => .error .bodyParseError
  else
    let base := "HTTP " ++ toString res.status
    match res.json with
    | none => .error (.httpError base)
    | some b => .error (.httpError (jsOrString b.error (jsOrString b.detail base)))

/-- Specification-side error message: the `error` field when present and
non-empty, else the `detail` field when present and non-empty, else
`HTTP <status>`. -/
def specErrorMessage (res : Response) : String :=
  match res.json with
  | none => "HTTP " ++ toString res.status
  | some b =>
    match b.error with
    | some s =>
      if s ≠ "" then s
      else
        match b.detail with
        | some d => if d ≠ "" then d else "HTTP " ++ toString res.status
        | none => "HTTP " ++ toString res.status
    | none =>
      match b.detail with
      | some d => if d ≠ "" then d else "HTTP " ++ toString res.status
      | none => "HTTP " ++ toString res.status

/-- Modelled from the spec: the backend vector store adapter and retrieval
engine are not part of the given sources (only this frontend is), so the
reindex swap of §4.2 is modelled here.  A vector record carries its chunk id
and its similarity score against the fixed query. -/
structure VectorRecord where
  chunk_id : String
  score : Nat
deriving DecidableEq

/-- Insert a record into a list sorted by descending score (stable). -/
def insertByScore (r : VectorRecord) : List VectorRecord → List VectorRecord
  | [] => [r]
  | x :: xs => if r.score ≤ x.score then x :: insertByScore r xs else r :: x :: xs

/-- Sort records by descending similarity score. -/
def sortByScore : List VectorRecord → List VectorRecord
  | [] => []
  | r :: rs => insertByScore r (sortByScore rs)

/-- Modelled from the spec: `retrieve` returns the top-`k` records of the
live collection by similarity (§4.7 steps 3–4; the date reordering and
context cap do not affect which collection is observed). -/
def retrieve (k : Nat) (coll : List VectorRecord) : List VectorRecord :=
  (sortByScore coll).take k

/-- Modelled from the spec: the two atomic actions interleaved during a
reindex — the `swap_from_temp` call (one atomic step, §4.2) and a concurrent
`retrieve` read. -/
inductive SwapAction where
  | swap
  | read

/-- State of the vector store during the swap: the live collection and the
result captured by the concurrent reader, if it has run. -/
structure SwapState where
  live : List VectorRecord
  readResult : Option (List VectorRecord)

/-- Modelled from the spec: one atomic step.  `swap` promotes the fully
written temp collection to live; `read` performs the retrieval against the
current live collection. -/
def swapStep (temp : List VectorRecord) (k : Nat) (st : SwapState) : SwapAction → SwapState
  | .swap => ⟨temp, st.readResult⟩
  | .read => ⟨st.live, some (retrieve k st.live)⟩

/-- Run an interleaving of atomic steps from the given state. -/
def swapRun (temp : List VectorRecord) (k : Nat) (init : SwapState)
    (tr : List SwapAction) : SwapState :=
  tr.foldl (swapStep temp k) init

/-- Concrete `JSON.parse` oracle used in witnesses: parses exactly the JSON
object `{"type": "done"}` (as `JSON.parse` does) and fails elsewhere. -/
def jpDoneJson : String → Option SseEvent := fun s =>
  if s = "\x7b\"type\": \"done\"\x7d" then some ⟨"done", "", []⟩ else none

/-- Concrete `JSON.parse` oracle for the `parseSseLine` witness: parses the
payload `ok` to a progress event and fails elsewhere. -/
def jpProgress : String → Option SseEvent := fun s =>
  if s = "ok" then some ⟨"progress", "", []⟩ else none

lemma no_done_of_processApiLines_not_stopped (jp : String → Option SseEvent) :
    ∀ ls : List String, (processApiLines jp ls).2 = false →
      ∀ e ∈ (processApiLines jp ls).1, ¬ e.type = "done" := by
  intro ls
  induction ls with
  | nil => intro _ e he; simp [processApiLines] at he
  | cons l ls ih =>
    intro hstop e he
    cases hpl : parseSseLine jp (jsTrim l) with
    | none =>
      simp only [processApiLines, hpl] at hstop he
      exact ih hstop e he
    | some ev =>
      by_cases hty : ev.type = "done"
      · simp only [processApiLines, hpl, if_pos hty] at hstop
        simp at hstop
      · simp only [processApiLines, hpl, if_neg hty, List.mem_cons] at hstop he
        rcases he with rfl | he
        · exact hty
        · exact ih hstop e he

lemma doneTerminated_processApiLines (jp : String → Option SseEvent) :
    ∀ ls : List String, doneTerminated (processApiLines jp ls).1 = true := by
  intro ls
  induction ls with
  | nil => rfl
  | cons l ls ih =>
    cases hpl : parseSseLine jp (jsTrim l) with
    | none => simp only [processApiLines, hpl]; exact ih
    | some ev =>
      by_cases hty : ev.type = "done"
      · simp [processApiLines, hpl, hty, doneTerminated]
      · simp only [processApiLines, hpl, if_neg hty, doneTerminated]
        exact ih

lemma doneTerminated_append (l r : List SseEvent)
    (hl : ∀ e ∈ l, ¬ e.type = "done") (hr : doneTerminated r = true) :
    doneTerminated (l ++ r) = true := by
  induction l with
  | nil => simpa
  | cons e es ih =>
    have he : ¬ e.type = "done" := hl e (by simp)
    simp only [List.cons_append, doneTerminated, if_neg he]
    exact ih (fun x hx => hl x (by simp [hx]))

/-- C1 (counterexample): a `reasoning` event supplied by the `/chat` stream
is not yielded by `streamChat` — the filter admits only `token`,
`citations` and `debug`, so the claim that every `reasoning` event is
delivered to the consumer is false. -/
theorem streamChat_drops_reasoning_cex :
    streamChatEvents [⟨"reasoning", "because", []⟩] = []
      ∧ ("reasoning" : String) ∈ (["debug", "token", "reasoning", "citations"] : List String) := by
  decide

/-- C1 (amended): for every event sequence of the `/chat` endpoint,
`streamChat` yields exactly the events whose type is `debug`, `token` or
`citations`, in arrival order; events of any other type — in particular
`reasoning` events — are filtered out and never reach the consumer. -/
theorem streamChat_forwards_exactly_client_types (evs : List SseEvent) :
    streamChatEvents evs
      = evs.filter (fun e => decide (e.type ∈ (["debug", "token", "citations"] : List String))) := by
  induction evs with
  | nil => rfl
  | cons e es ih =>
    rw [List.filter_cons]
    by_cases h : e.type = "token" ∨ e.type = "citations" ∨ e.type = "debug"
    · have hmem : e.type ∈ (["debug", "token", "citations"] : List String) := by
        rcases h with h | h | h <;> simp [h]
      simp only [streamChatEvents, if_pos h, ih]
      rw [if_pos (by simp [hmem])]
    · have hmem : e.type ∉ (["debug", "token", "citations"] : List String) := by
        push_neg at h
        simp [h.1, h.2.1, h.2.2]
      simp only [streamChatEvents, if_neg h, ih]
      rw [if_neg (by simp [hmem])]

/-- C5: behaviour of `parseSseLine` on every input line: `none` without the
`data: ` marker; the synthetic `done` event when the payload trims to
`[DONE]`; otherwise exactly what `JSON.parse` produces, with a parse failure
mapped to `none` instead of an exception. -/
theorem parseSseLine_spec (jp : String → Option SseEvent) (line : String) :
    (jsStartsWith line "data: " = false → parseSseLine jp line = none)
    ∧ (jsStartsWith line "data: " = true → jsTrim (jsDrop line 6) = "[DONE]" →
        parseSseLine jp line = some ⟨"done", "", []⟩)
    ∧ (∀ e, jsStartsWith line "data: " = true → ¬ jsTrim (jsDrop line 6) = "[DONE]" →
        jp (jsTrim (jsDrop line 6)) = some e → parseSseLine jp line = some e)
    ∧ (jsStartsWith line "data: " = true → ¬ jsTrim (jsDrop line 6) = "[DONE]" →
        jp (jsTrim (jsDrop line 6)) = none → parseSseLine jp line = none) := by
  refine ⟨?_, ?_, ?_, ?_⟩
  · intro h
    simp [parseSseLine, h]
  · intro h hd
    simp [parseSseLine, h, hd]
  · intro e h hd hj
    simp [parseSseLine, h, hd, hj]
  · intro h hd hj
    simp [parseSseLine, h, hd, hj]

/-- C5 (witness): `parseSseLine_spec` evaluated on four concrete lines, one
per clause. -/
theorem parseSseLine_spec_witness :
    parseSseLine jpProgress "nope" = none
    ∧ parseSseLine jpProgress "data: [DONE]  " = some ⟨"done", "", []⟩
    ∧ parseSseLine jpProgress "data: ok" = some ⟨"progress", "", []⟩
    ∧ parseSseLine jpProgress "data: bad" = none :=
  ⟨(parseSseLine_spec jpProgress "nope").1 (by decide),
   (parseSseLine_spec jpProgress "data: [DONE]  ").2.1 (by decide) (by decide),
   (parseSseLine_spec jpProgress "data: ok").2.2.1 ⟨"progress", "", []⟩ (by decide) (by decide)
     (by decide),
   (parseSseLine_spec jpProgress "data: bad").2.2.2 (by decide) (by decide) (by decide)⟩

/-- C4 (counterexample): `importJson` does not stop on a parsed JSON event of
type `done` (it only stops on a literal `data: [DONE]` line), so an input
byte stream carrying two `{"type": "done"}` lines makes it yield two events
of type `done` — the claim that the generators yield at most one is false. -/
theorem importJson_double_done_cex :
    ((importJsonEvents jpDoneJson
        ["data: \x7b\"type\": \"done\"\x7d\ndata: \x7b\"type\": \"done\"\x7d\n"] "").countP
      (fun e => e.type = "done")) = 2 := by
  decide

/-- C4 (amended): for every input byte stream, `apiStream` yields at most one
event of type `done`, which when present is the last yielded element, and
neither generator yields anything after its loop has returned early
(`apiStream` after yielding a `done` event, `importJson` after parsing a
`data: [DONE]` line); `importJson`, however, may yield several `done`-typed
events parsed from JSON lines. -/
theorem sse_stream_done_terminal (jp : String → Option SseEvent)
    (chunks cs' : List String) (buffer : String) :
    doneTerminated (apiStreamEvents jp chunks buffer) = true
    ∧ (apiStreamStopped jp chunks buffer = true →
        apiStreamEvents jp (chunks ++ cs') buffer = apiStreamEvents jp chunks buffer)
    ∧ (importJsonStopped jp chunks buffer = true →
        importJsonEvents jp (chunks ++ cs') buffer = importJsonEvents jp chunks buffer) := by
  refine ⟨?_, ?_, ?_⟩
  · induction chunks generalizing buffer with
    | nil => rfl
    | cons c cs ih =>
      simp only [apiStreamEvents]
      by_cases hstop : (processApiLines jp (jsSplitNl (buffer ++ c)).dropLast).2 = true
      · rw [if_pos hstop]
        exact doneTerminated_processApiLines jp _
      · rw [if_neg hstop]
        exact doneTerminated_append _ _
          (no_done_of_processApiLines_not_stopped jp _ (by simpa using hstop)) (ih _)
  · induction chunks generalizing buffer with
    | nil => intro h; simp [apiStreamStopped] at h
    | cons c cs ih =>
      intro h
      simp only [apiStreamStopped] at h
      simp only [List.cons_append, apiStreamEvents]
      by_cases hstop : (processApiLines jp (jsSplitNl (buffer ++ c)).dropLast).2 = true
      · rw [if_pos hstop, if_pos hstop]
      · rw [if_neg hstop] at h
        rw [if_neg hstop, if_neg hstop]
        exact congrArg _ (ih _ h)
  · induction chunks generalizing buffer with
    | nil => intro h; simp [importJsonStopped] at h
    | cons c cs ih =>
      intro h
      simp only [importJsonStopped] at h
      simp only [List.cons_append, importJsonEvents]
      by_cases hstop : (processImportLines jp (jsSplitNl (buffer ++ c)).dropLast).2 = true
      · rw [if_pos hstop, if_pos hstop]
      · rw [if_neg hstop] at h
        rw [if_neg hstop, if_neg hstop]
        exact congrArg _ (ih _ h)

/-- C4 (witness): `sse_stream_done_terminal` applied to a concrete stream
that reaches its `[DONE]` line, with trailing chunks shown to be ignored. -/
theorem sse_stream_done_terminal_witness :
    apiStreamStopped jpDoneJson ["data: [DONE]\n"] "" = true
    ∧ apiStreamEvents jpDoneJson (["data: [DONE]\n"] ++ ["data: X\n"]) ""
        = apiStreamEvents jpDoneJson ["data: [DONE]\n"] ""
    ∧ importJsonStopped jpDoneJson ["data: [DONE]\n"] "" = true
    ∧ importJsonEvents jpDoneJson (["data: [DONE]\n"] ++ ["data: Y\n"]) ""
        = importJsonEvents jpDoneJson ["data: [DONE]\n"] "" :=
  ⟨by decide,
   (sse_stream_done_terminal jpDoneJson ["data: [DONE]\n"] ["data: X\n"] "").2.1 (by decide),
   by decide,
   (sse_stream_done_terminal jpDoneJson ["data: [DONE]\n"] ["data: Y\n"] "").2.2 (by decide)⟩

lemma find?_messagesReducer_appendToken (st : List Message) (mid tok : String) :
    (messagesReducer st (.appendToken mid tok)).find? (fun m => m.id == mid)
      = (st.find? (fun m => m.id == mid)).map
          (fun m => ⟨m.id, m.role, m.content ++ tok, m.citations⟩) := by
  simp only [messagesReducer]
  rw [List.find?_map]
  have hpf : ((fun m : Message => m.id == mid) ∘ fun msg : Message =>
      if msg.id = mid then ⟨msg.id, msg.role, msg.content ++ tok, msg.citations⟩ else msg)
      = fun m : Message => m.id == mid := by
    funext m
    by_cases h : m.id = mid <;> simp [h]
  rw [hpf]
  cases hf : st.find? (fun m => m.id == mid) with
  | none => rfl
  | some m0 =>
    have hid : m0.id = mid := by simpa using List.find?_some hf
    simp [hid]

lemma find?_messagesReducer_setCitations (st : List Message) (mid : String)
    (cs : List Citation) :
    (messagesReducer st (.setCitations mid cs)).find? (fun m => m.id == mid)
      = (st.find? (fun m => m.id == mid)).map
          (fun m => ⟨m.id, m.role, m.content, some cs⟩) := by
  simp only [messagesReducer]
  rw [List.find?_map]
  have hpf : ((fun m : Message => m.id == mid) ∘ fun msg : Message =>
      if msg.id = mid then ⟨msg.id, msg.role, msg.content, some cs⟩ else msg)
      = fun m : Message => m.id == mid := by
    funext m
    by_cases h : m.id = mid <;> simp [h]
  rw [hpf]
  cases hf : st.find? (fun m => m.id == mid) with
  | none => rfl
  | some m0 =>
    have hid : m0.id = mid := by simpa using List.find?_some hf
    simp [hid]

lemma find?_foldl_chatStep (aid : String) :
    ∀ (events : List SseEvent) (st : List Message) (m : Message),
      st.find? (fun x => x.id == aid) = some m →
      ((events.foldl (chatStep aid) st).find? (fun x => x.id == aid))
        = some ⟨aid, m.role, tokenConcatFrom m.content events,
            citationsAfter m.citations events⟩ := by
  intro events
  induction events with
  | nil =>
    intro st m hf
    have hid : m.id = aid := by simpa using List.find?_some hf
    subst hid
    rw [List.foldl_nil, tokenConcatFrom, citationsAfter]
    exact hf
  | cons e es ih =>
    intro st m hf
    simp only [List.foldl_cons, tokenConcatFrom, citationsAfter]
    by_cases ht : e.type = "token"
    · have hf' : (chatStep aid st e).find? (fun x => x.id == aid)
          = some ⟨m.id, m.role, m.content ++ e.content, m.citations⟩ := by
        simp [chatStep, ht, find?_messagesReducer_appendToken, hf]
      have hrec := ih _ _ hf'
      simpa [ht] using hrec
    · by_cases hd : e.type = "debug"
      · have hf' : (chatStep aid st e).find? (fun x => x.id == aid) = some m := by
          simp [chatStep, ht, hd, hf]
        have hrec := ih _ _ hf'
        simpa [ht, hd] using hrec
      · by_cases hc : e.type = "citations"
        · have hf' : (chatStep aid st e).find? (fun x => x.id == aid)
              = some ⟨m.id, m.role, m.content, some e.citations⟩ := by
            simp [chatStep, ht, hd, hc, find?_messagesReducer_setCitations, hf]
          have hrec := ih _ _ hf'
          simpa [ht, hc] using hrec
        · have hf' : (chatStep aid st e).find? (fun x => x.id == aid) = some m := by
            simp [chatStep, ht, hd, hc, hf]
          have hrec := ih _ _ hf'
          simpa [ht, hc] using hrec

lemma find?_afterStream (prev : List Message) (input userId assistantId : String)
    (events : List SseEvent)
    (hfresh : ∀ m ∈ prev, ¬ m.id = assistantId) (hid : ¬ userId = assistantId) :
    (afterStream prev input userId assistantId events).find? (fun m => m.id == assistantId)
      = some ⟨assistantId, "assistant", tokenConcatFrom "" events,
          citationsAfter none events⟩ := by
  have h0 : prev.find? (fun m : Message => m.id == assistantId) = none :=
    List.find?_eq_none.mpr (fun x hx => by simpa using hfresh x hx)
  have h2 : ((prev ++ ([⟨userId, "user", input, none⟩] : List Message))
        ++ ([⟨assistantId, "assistant", "", none⟩] : List Message)).find?
        (fun m : Message => m.id == assistantId)
      = some ⟨assistantId, "assistant", "", none⟩ := by
    have hbu : ((userId == assistantId) : Bool) = false := by
      simpa using hid
    rw [List.find?_append, List.find?_append, h0]
    simp [List.find?, hbu]
  exact find?_foldl_chatStep assistantId events _ _ h2

/-- C9: `messagesReducer` on an APPEND_TOKEN or SET_CITATIONS action
preserves the list length and the positional order; every message whose id
differs from the action's `messageId` is unchanged at its position; the
message(s) with that id receive exactly the described update; and when no
message carries that id the list is unchanged. -/
theorem messagesReducer_targeted_update (st : List Message) (mid tok : String)
    (cs : List Citation) :
    ((messagesReducer st (.appendToken mid tok)).length = st.length
      ∧ (messagesReducer st (.setCitations mid cs)).length = st.length)
    ∧ (∀ i : Nat, ∀ m : Message, st[i]? = some m →
        (¬ m.id = mid →
          (messagesReducer st (.appendToken mid tok))[i]? = some m
          ∧ (messagesReducer st (.setCitations mid cs))[i]? = some m)
        ∧ (m.id = mid →
          (messagesReducer st (.appendToken mid tok))[i]?
              = some ⟨m.id, m.role, m.content ++ tok, m.citations⟩
          ∧ (messagesReducer st (.setCitations mid cs))[i]?
              = some ⟨m.id, m.role, m.content, some cs⟩))
    ∧ ((∀ m ∈ st, ¬ m.id = mid) →
        messagesReducer st (.appendToken mid tok) = st
        ∧ messagesReducer st (.setCitations mid cs) = st) := by
  refine ⟨⟨by simp [messagesReducer], by simp [messagesReducer]⟩, ?_, ?_⟩
  · intro i m hi
    constructor
    · intro hne
      constructor <;> simp [messagesReducer, List.getElem?_map, hi, hne]
    · intro heq
      constructor <;> simp [messagesReducer, List.getElem?_map, hi, heq]
  · intro hall
    constructor
    · simp only [messagesReducer]
      have h : st.map (fun msg : Message =>
          if msg.id = mid then ⟨msg.id, msg.role, msg.content ++ tok, msg.citations⟩ else msg)
          = st.map id := List.map_congr_left (fun a ha => by simp [hall a ha])
      rw [h, List.map_id]
    · simp only [messagesReducer]
      have h : st.map (fun msg : Message =>
          if msg.id = mid then ⟨msg.id, msg.role, msg.content, some cs⟩ else msg)
          = st.map id := List.map_congr_left (fun a ha => by simp [hall a ha])
      rw [h, List.map_id]

/-- C9 (witness): `messagesReducer_targeted_update` applied to a concrete
two-message state: the non-matching message is untouched, the matching one
is appended to, and a nonexistent id leaves the state equal. -/
theorem messagesReducer_targeted_update_witness :
    (messagesReducer [⟨"1", "user", "hi", none⟩, ⟨"2", "assistant", "x", none⟩]
        (.appendToken "2" "!"))[0]? = some ⟨"1", "user", "hi", none⟩
    ∧ (messagesReducer [⟨"1", "user", "hi", none⟩, ⟨"2", "assistant", "x", none⟩]
        (.appendToken "2" "!"))[1]? = some ⟨"2", "assistant", "x" ++ "!", none⟩
    ∧ messagesReducer [⟨"1", "user", "hi", none⟩, ⟨"2", "assistant", "x", none⟩]
        (.setCitations "9" []) = [⟨"1", "user", "hi", none⟩, ⟨"2", "assistant", "x", none⟩] := by
  have h := messagesReducer_targeted_update
    [⟨"1", "user", "hi", none⟩, ⟨"2", "assistant", "x", none⟩] "2" "!" []
  have h9 := messagesReducer_targeted_update
    [⟨"1", "user", "hi", none⟩, ⟨"2", "assistant", "x", none⟩] "9" "!" []
  refine ⟨?_, ?_, ?_⟩
  · exact ((h.2.1 0 ⟨"1", "user", "hi", none⟩ (by decide)).1 (by decide)).1
  · exact ((h.2.1 1 ⟨"2", "assistant", "x", none⟩ (by decide)).2 (by decide)).1
  · exact (h9.2.2 (by decide)).2

/-- C2: the payload built by `handleSave` never contains a sensitive key
paired with the sentinel value `****`, and every defined entry under a
non-sensitive key is included unconditionally. -/
theorem handleSave_sensitive_sentinel_filtered (ls : List (String × Option SettingValue)) :
    (∀ k : String, isSensitiveField k = true →
        (k, SettingValue.str "****") ∉ handleSaveUpdateData ls)
    ∧ (∀ (k : String) (v : SettingValue), (k, some v) ∈ ls → isSensitiveField k = false →
        (k, v) ∈ handleSaveUpdateData ls) := by
  constructor
  · intro k hk hmem
    rw [handleSaveUpdateData, List.mem_filterMap] at hmem
    obtain ⟨⟨k', v'⟩, hin, hf⟩ := hmem
    cases v' with
    | none => simp [handleSaveEntry] at hf
    | some v =>
      by_cases hs : isSensitiveField k' = true
      · by_cases hv : v ≠ SettingValue.str "****" ∧ v ≠ SettingValue.str ""
        · simp only [handleSaveEntry] at hf
          rw [if_pos hs, if_pos hv] at hf
          obtain ⟨rfl, rfl⟩ : k' = k ∧ v = SettingValue.str "****" := by
            simpa [Prod.ext_iff] using hf
          exact hv.1 rfl
        · simp only [handleSaveEntry] at hf
          rw [if_pos hs, if_neg hv] at hf
          exact Option.noConfusion hf
      · simp only [handleSaveEntry] at hf
        rw [if_neg hs] at hf
        obtain ⟨rfl, rfl⟩ : k' = k ∧ v = SettingValue.str "****" := by
          simpa [Prod.ext_iff] using hf
        exact hs hk
  · intro k v hin hk
    rw [handleSaveUpdateData, List.mem_filterMap]
    exact ⟨(k, some v), hin, by simp [handleSaveEntry, hk]⟩

/-- C2 (witness): `handleSave_sensitive_sentinel_filtered` on a concrete form
state holding an unchanged sensitive key (sentinel) and a numeric field. -/
theorem handleSave_sensitive_sentinel_filtered_witness :
    ("chat_api_key", SettingValue.str "****") ∉ handleSaveUpdateData
        [("chat_api_key", some (SettingValue.str "****")), ("top_k", some (SettingValue.num 5))]
    ∧ ("top_k", SettingValue.num 5) ∈ handleSaveUpdateData
        [("chat_api_key", some (SettingValue.str "****")), ("top_k", some (SettingValue.num 5))] := by
  have h := handleSave_sensitive_sentinel_filtered
    [("chat_api_key", some (SettingValue.str "****")), ("top_k", some (SettingValue.num 5))]
  exact ⟨h.1 "chat_api_key" (by decide), h.2 "top_k" (SettingValue.num 5) (by decide) (by decide)⟩

/-- C3: when the stream consumed by `handleSend` throws and the abort signal
is not set, the assistant message ends with exactly one appended
`[Error: <message>]` token after the tokens received so far, its citations
field is exactly what the stream had set (the error path does not touch it),
and the error banner carries the message. -/
theorem handleSend_error_single_token (prev : List Message)
    (input userId assistantId emsg : String) (events : List SseEvent)
    (hfresh : ∀ m ∈ prev, ¬ m.id = assistantId) (hid : ¬ userId = assistantId) :
    (afterStream prev input userId assistantId events).find? (fun m => m.id == assistantId)
        = some ⟨assistantId, "assistant", tokenConcatFrom "" events, citationsAfter none events⟩
    ∧ (handleSend prev input userId assistantId events (.err emsg) false).messages.find?
          (fun m => m.id == assistantId)
        = some ⟨assistantId, "assistant",
            tokenConcatFrom "" events ++ ("[Error: " ++ emsg ++ "]"), citationsAfter none events⟩
    ∧ (handleSend prev input userId assistantId events (.err emsg) false).error = some emsg := by
  have h2 := find?_afterStream prev input userId assistantId events hfresh hid
  refine ⟨h2, ?_, rfl⟩
  show (messagesReducer (afterStream prev input userId assistantId events)
      (.appendToken assistantId ("[Error: " ++ emsg ++ "]"))).find? (fun m => m.id == assistantId)
      = _
  rw [find?_messagesReducer_appendToken, h2]
  rfl

/-- C3 (witness): `handleSend_error_single_token` on a concrete run — one
received token `A`, then a failure with message `boom`. -/
theorem handleSend_error_single_token_witness :
    (handleSend [] "q" "1" "2" [⟨"token", "A", []⟩] (.err "boom") false).messages.find?
        (fun m => m.id == "2")
      = some ⟨"2", "assistant", "A[Error: boom]", none⟩
    ∧ (handleSend [] "q" "1" "2" [⟨"token", "A", []⟩] (.err "boom") false).error
      = some "boom" := by
  have h := handleSend_error_single_token [] "q" "1" "2" "boom" [⟨"token", "A", []⟩]
    (by simp) (by decide)
  refine ⟨?_, h.2.2⟩
  rw [h.2.1]
  decide

/-- C6: when the user cancels (the abort signal is set when the stream
throws), the message list is exactly the state reached from the consumed
events — the assistant message keeps all received token content, no
`[Error: ...]` token is appended — and the error banner stays unset. -/
theorem handleSend_abort_preserves_work (prev : List Message)
    (input userId assistantId emsg : String) (events : List SseEvent)
    (hfresh : ∀ m ∈ prev, ¬ m.id = assistantId) (hid : ¬ userId = assistantId) :
    (handleSend prev input userId assistantId events (.err emsg) true).messages
        = afterStream prev input userId assistantId events
    ∧ (handleSend prev input userId assistantId events (.err emsg) true).messages.find?
          (fun m => m.id == assistantId)
        = some ⟨assistantId, "assistant", tokenConcatFrom "" events, citationsAfter none events⟩
    ∧ (handleSend prev input userId assistantId events (.err emsg) true).error = none := by
  exact ⟨rfl, find?_afterStream prev input userId assistantId events hfresh hid, rfl⟩

/-- C6 (witness): `handleSend_abort_preserves_work` on a concrete cancelled
run — the received token `A` survives, no error token, no banner. -/
theorem handleSend_abort_preserves_work_witness :
    (handleSend [] "q" "1" "2" [⟨"token", "A", []⟩] (.err "boom") true).messages.find?
        (fun m => m.id == "2")
      = some ⟨"2", "assistant", "A", none⟩
    ∧ (handleSend [] "q" "1" "2" [⟨"token", "A", []⟩] (.err "boom") true).error = none := by
  have h := handleSend_abort_preserves_work [] "q" "1" "2" "boom" [⟨"token", "A", []⟩]
    (by simp) (by decide)
  refine ⟨?_, h.2.2⟩
  rw [h.2.1]
  decide

/-- C7 (counterexample): `apiFetch` also throws on a 2xx response whose body
is not valid JSON (the returned `res.json()` promise rejects), and with a
body `{"error": "", "detail": "boom"}` the thrown message is `boom`, not the
present-but-empty `error` field — JS `||` treats the empty string as falsy. -/
theorem apiFetch_claim_cex :
    apiFetch ⟨200, none⟩ = Except.error ApiError.bodyParseError
    ∧ apiFetch ⟨500, some ⟨some "", some "boom"⟩⟩
        = Except.error (ApiError.httpError "boom") := by
  constructor <;> rfl

/-- C7 (amended): `apiFetch` returns the parsed JSON body exactly on a 2xx
response with a parseable body; on a 2xx response with an unparseable body it
throws (the `res.json()` rejection); on a non-2xx response it throws an
`Error` whose message is the body's `error` field when present and
non-empty, else its `detail` field when present and non-empty, else
`HTTP <status>`. -/
theorem apiFetch_error_characterization (res : Response) :
    (∀ b : JsonBody, 200 ≤ res.status → res.status ≤ 299 → res.json = some b →
        apiFetch res = Except.ok b)
    ∧ (200 ≤ res.status → res.status ≤ 299 → res.json = none →
        apiFetch res = Except.error ApiError.bodyParseError)
    ∧ (¬ (200 ≤ res.status ∧ res.status ≤ 299) →
        apiFetch res = Except.error (ApiError.httpError (specErrorMessage res))) := by
  refine ⟨?_, ?_, ?_⟩
  · intro b h1 h2 hj
    simp [apiFetch, h1, h2, hj]
  · intro h1 h2 hj
    simp [apiFetch, h1, h2, hj]
  · intro h
    simp only [apiFetch, if_neg h]
    cases hj : res.json with
    | none => simp [specErrorMessage, hj]
    | some b =>
      cases he : b.error with
      | none =>
        cases hd : b.detail with
        | none => simp [specErrorMessage, hj, he, hd, jsOrString]
        | some d =>
          by_cases hde : d = ""
          · simp [specErrorMessage, hj, he, hd, jsOrString, hde]
          · simp [specErrorMessage, hj, he, hd, jsOrString, hde]
      | some s =>
        by_cases hse : s = ""
        · cases hd : b.detail with
          | none => simp [specErrorMessage, hj, he, hd, jsOrString, hse]
          | some d =>
            by_cases hde : d = ""
            · simp [specErrorMessage, hj, he, hd, jsOrString, hse, hde]
            · simp [specErrorMessage, hj, he, hd, jsOrString, hse, hde]
        · simp [specErrorMessage, hj, he, jsOrString, hse]

/-- C7 (witness): `apiFetch_error_characterization` evaluated on a 404 with
an `error` field, a 204 with a parseable body, and a 204 with an unparseable
body. -/
theorem apiFetch_error_characterization_witness :
    apiFetch ⟨404, some ⟨some "nope", none⟩⟩ = Except.error (ApiError.httpError "nope")
    ∧ apiFetch ⟨204, some ⟨none, none⟩⟩ = Except.ok ⟨none, none⟩
    ∧ apiFetch ⟨204, none⟩ = Except.error ApiError.bodyParseError := by
  refine ⟨?_, ?_, ?_⟩
  · have h := (apiFetch_error_characterization ⟨404, some ⟨some "nope", none⟩⟩).2.2 (by decide)
    rw [h]
    rfl
  · exact (apiFetch_error_characterization ⟨204, some ⟨none, none⟩⟩).1 ⟨none, none⟩
      (by decide) (by decide) rfl
  · exact (apiFetch_error_characterization ⟨204, none⟩).2.1 (by decide) (by decide) rfl

/-- C10: under the `all` filter with a whitespace-only search query,
`filteredChats` omits every chat with `included = false` and
`message_count = 0`; and such a chat is visible only under `all` with a
non-empty trimmed query, or under the `excluded` filter. -/
theorem filteredChats_all_hides_empty_excluded (chats : List ChatInfo) (q : String)
    (chat : ChatInfo) :
    ((jsTrim q).length = 0 → chat.included = false → chat.message_count = 0 →
        chat ∉ filteredChats chats "all" q)
    ∧ (∀ f : String, chat ∈ filteredChats chats f q → chat.included = false →
        chat.message_count = 0 → (f = "all" ∧ 0 < (jsTrim q).length) ∨ f = "excluded") := by
  constructor
  · intro hq hinc hcount hmem
    rw [filteredChats, List.mem_filter] at hmem
    have hpred := hmem.2
    simp [hq, hinc, hcount] at hpred
  · intro f hmem hinc hcount
    rw [filteredChats, List.mem_filter] at hmem
    have hpred := hmem.2
    by_cases hf : f = "all"
    · subst hf
      left
      refine ⟨rfl, ?_⟩
      by_contra hq
      have hq0 : (jsTrim q).length = 0 := by omega
      simp [hq0, hinc, hcount] at hpred
    · by_cases hg : f = "excluded"
      · exact Or.inr hg
      · exfalso
        by_cases hi : f = "included"
        · subst hi
          simp [hinc] at hpred
        · simp [hf, hg, hi] at hpred

/-- C10 (witness): `filteredChats_all_hides_empty_excluded` on a concrete
excluded, message-less chat: hidden under `all` with a blank query, visible
under `excluded`. -/
theorem filteredChats_all_hides_empty_excluded_witness :
    (⟨"g1", "ghost", 0, false⟩ : ChatInfo)
        ∉ filteredChats [⟨"g1", "ghost", 0, false⟩] "all" "   "
    ∧ ((("excluded" : String) = "all" ∧ 0 < (jsTrim "").length)
        ∨ ("excluded" : String) = "excluded") := by
  constructor
  · exact (filteredChats_all_hides_empty_excluded [⟨"g1", "ghost", 0, false⟩] "   "
      ⟨"g1", "ghost", 0, false⟩).1 (by decide) rfl rfl
  · exact (filteredChats_all_hides_empty_excluded [⟨"g1", "ghost", 0, false⟩] ""
      ⟨"g1", "ghost", 0, false⟩).2 "excluded" (by decide) rfl rfl

lemma length_insertByScore (r : VectorRecord) (l : List VectorRecord) :
    (insertByScore r l).length = l.length + 1 := by
  induction l with
  | nil => rfl
  | cons x xs ih =>
    rw [insertByScore]
    by_cases h : r.score ≤ x.score
    · rw [if_pos h]
      simp [ih]
    · rw [if_neg h]
      simp

lemma length_sortByScore (l : List VectorRecord) :
    (sortByScore l).length = l.length := by
  induction l with
  | nil => rfl
  | cons x xs ih =>
    rw [sortByScore, length_insertByScore, ih]
    rfl

lemma retrieve_ne_nil (k : Nat) (coll : List VectorRecord)
    (hk : 1 ≤ k) (hc : coll ≠ []) : retrieve k coll ≠ [] := by
  have hlen : 0 < (retrieve k coll).length := by
    rw [retrieve, List.length_take, length_sortByScore]
    have hpos : 0 < coll.length := List.length_pos.mpr hc
    omega
  exact List.length_pos.mp hlen

/-- C8: in every interleaving of the atomic `swap_from_temp` step with a
concurrent `retrieve`, the reader observes either the pre-reindex top-k or
the post-reindex top-k, and — when the collections are non-empty (at least
one chunk pre-existed, and reindex rewrites every chunk into the temp
collection) and `k ≥ 1` — the result is never empty. -/
theorem reindex_swap_atomic_reader (old temp : List VectorRecord) (k : Nat)
    (tr : List SwapAction) (r : List VectorRecord)
    (htr : tr = [.swap, .read] ∨ tr = [.read, .swap])
    (hold : old ≠ []) (htemp : temp ≠ []) (hk : 1 ≤ k)
    (hread : (swapRun temp k ⟨old, none⟩ tr).readResult = some r) :
    (r = retrieve k old ∨ r = retrieve k temp) ∧ r ≠ [] := by
  rcases htr with rfl | rfl
  · simp only [swapRun, List.foldl_cons, List.foldl_nil, swapStep] at hread
    obtain rfl : retrieve k temp = r := by simpa using hread
    exact ⟨Or.inr rfl, retrieve_ne_nil k temp hk htemp⟩
  · simp only [swapRun, List.foldl_cons, List.foldl_nil, swapStep] at hread
    obtain rfl : retrieve k old = r := by simpa using hread
    exact ⟨Or.inl rfl, retrieve_ne_nil k old hk hold⟩

/-- C8 (witness): `reindex_swap_atomic_reader` on a one-record store being
reindexed, with the read scheduled before the swap. -/
theorem reindex_swap_atomic_reader_witness :
    (([⟨"a", 5⟩] : List VectorRecord) = retrieve 1 [⟨"a", 5⟩]
        ∨ ([⟨"a", 5⟩] : List VectorRecord) = retrieve 1 [⟨"a", 7⟩])
    ∧ ([⟨"a", 5⟩] : List VectorRecord) ≠ [] :=
  reindex_swap_atomic_reader [⟨"a", 5⟩] [⟨"a", 7⟩] 1 [.read, .swap] [⟨"a", 5⟩]
    (Or.inr rfl) (by decide) (by decide) (by decide) (by decide)

end LifeQuery
